import Mathlib

/-!
Verification of the django-roa remote-persistence engine
(`django_roa/db/models.py`): a shallow embedding of the save/delete
protocol of `ROAModel`, the wire-codec selection, and the URL-resolution
helpers, together with theorems checking the natural-language
specification against the embedded code.

Conventions of the embedding:
* Python attribute values are `Value` (`none`, integers, strings);
  a model instance is an association list from attribute names to values.
* The HTTP transport is an oracle: a list of `HttpResponse` consumed in
  call order.  A response bundles everything the engine observes from
  the wire: whether the client raised `HTTPError`, the HTTP status code,
  whether the decoded body validates, and the validated field data that
  the serializer produces from the body.
* Raised Python exceptions become `Except.error (e, trace)` where
  `trace` is the list of events (signals and HTTP calls) emitted before
  the raise, so that "raises before any network activity" is expressible.
* The recursion over the multi-table-inheritance parents uses explicit
  fuel so that the function is structurally recursive and computable by
  the kernel; callers pass fuel at least the height of the inheritance
  chain plus one.
-/

namespace DjangoRoa

/-- Decidable equality of `Except` results, so that concrete runs of
the embedded engine can be checked by `decide`. -/
instance {ε α : Type} [DecidableEq ε] [DecidableEq α] : DecidableEq (Except ε α) :=
  fun x y =>
    match x, y with
    | Except.ok a, Except.ok b =>
      if h : a = b then Decidable.isTrue (by rw [h])
      else Decidable.isFalse (fun hh => by cases hh; exact h rfl)
    | Except.error a, Except.error b =>
      if h : a = b then Decidable.isTrue (by rw [h])
      else Decidable.isFalse (fun hh => by cases hh; exact h rfl)
    | Except.ok _, Except.error _ => Decidable.isFalse (fun hh => Except.noConfusion hh)
    | Except.error _, Except.ok _ => Decidable.isFalse (fun hh => Except.noConfusion hh)

/-- A Python value as stored on a model instance: `None`, an int, or a
string. -/
inductive Value where
  | none
  | int (n : Int)
  | str (s : String)
deriving DecidableEq, Repr

/-- A model instance: association list from attribute names to values.
`getattr` of a missing attribute yields `Value.none` (unsaved fields
default to `None` on Django model instances). -/
abbrev Inst := List (String × Value)

/-- First-match association-list lookup (Python `dict.get`). -/
def lookupAssoc {α : Type} : List (String × α) → String → Option α
  | [], _ => Option.none
  | (k, v) :: rest, key => if k = key then some v else lookupAssoc rest key

/-- Python `getattr(self, name)` on a model instance. -/
def getattr (inst : Inst) (name : String) : Value :=
  (lookupAssoc inst name).getD Value.none

/-- Python `setattr(self, name, v)`: replace in place, append if absent. -/
def setattr : Inst → String → Value → Inst
  | [], name, v => [(name, v)]
  | (k, w) :: rest, name, v =>
    if k = name then (name, v) :: rest else (k, w) :: setattr rest name v

/-- Value of a run of decimal digits; `Option.none` as soon as a
non-digit appears. -/
def digitsVal : List Char → Nat → Option Nat
  | [], acc => some acc
  | c :: rest, acc =>
    if c.isDigit then digitsVal rest (acc * 10 + (c.toNat - 48)) else Option.none

/-- CPython `int(s)` on a string: optional surrounding whitespace, an
optional sign, then one or more decimal digits; anything else raises
`ValueError`. -/
def pyIntOfString (s : String) : Option Int :=
  let cs := ((s.data.dropWhile Char.isWhitespace).reverse.dropWhile Char.isWhitespace).reverse
  match cs with
  | [] => Option.none
  | c :: rest =>
    if c = '-' then
      match rest with
      | [] => Option.none
      | _ => (digitsVal rest 0).map (fun n => -(n : Int))
    else if c = '+' then
      match rest with
      | [] => Option.none
      | _ => (digitsVal rest 0).map (fun n => (n : Int))
    else (digitsVal cs 0).map (fun n => (n : Int))

/-- The two exception classes `int(...)` can raise on our value types:
`ValueError` for a non-numeric string, `TypeError` for `None`. -/
inductive PyIntErr where
  | valueError
  | typeError
deriving DecidableEq, Repr

/-- Python `int(v)` on a `Value`. -/
def pyInt : Value → Except PyIntErr Int
  | Value.int n => Except.ok n
  | Value.none => Except.error PyIntErr.typeError
  | Value.str s =>
    match pyIntOfString s with
    | some n => Except.ok n
    | Option.none => Except.error PyIntErr.valueError

/-- The effect of `try: pk = int(v) / except ValueError: pk = v` in
`save_base`: the integer representation when `v` is numeric-coercible,
the raw value otherwise.  (The `TypeError` raised by `int(None)` is not
caught by the source and aborts the save; that case never reaches this
assignment.) -/
def pyCoerce (v : Value) : Value :=
  match pyInt v with
  | Except.ok n => Value.int n
  | Except.error _ => v

/-- Python `str(v)` / `"%s" % v` for the values we model. -/
def pyStr : Value → String
  | Value.none => "None"
  | Value.int n => toString n
  | Value.str s => s

/-- The slice of Django's `Options` (`cls._meta`) that `save_base` and
`delete` read: primary-key attname, proxy flag, `app_label`,
`model_name`, `auto_created`, and the `parents` mapping from each
concrete parent to the attname of the one-to-one parent-link field
(`None` for the parent entry of a proxy model). -/
inductive MetaOpts : Type where
  | mk (pkAttname : String) (proxy : Bool) (appLabel : String) (modelName : String)
      (autoCreated : Bool) (parents : List (MetaOpts × Option String)) : MetaOpts
deriving Repr

def MetaOpts.pkAttname : MetaOpts → String
  | .mk a _ _ _ _ _ => a

def MetaOpts.proxy : MetaOpts → Bool
  | .mk _ p _ _ _ _ => p

def MetaOpts.appLabel : MetaOpts → String
  | .mk _ _ l _ _ _ => l

def MetaOpts.modelName : MetaOpts → String
  | .mk _ _ _ n _ _ => n

def MetaOpts.autoCreated : MetaOpts → Bool
  | .mk _ _ _ _ a _ => a

def MetaOpts.parents : MetaOpts → List (MetaOpts × Option String)
  | .mk _ _ _ _ _ ps => ps

/-- The `if not meta.pk.attname in ['pk', 'id']` test of `save_base`:
the model uses a custom primary-key field. -/
def customPkP (m : MetaOpts) : Prop := m.pkAttname ≠ "pk" ∧ m.pkAttname ≠ "id"

instance (m : MetaOpts) : Decidable (customPkP m) := by
  unfold customPkP; infer_instance

/-- A concrete `ROAModel` subclass as the engine sees it: its meta
options, the URL the class-supplied static `get_resource_url_list`
returns (`Option.none` when the class does not supply one, in which
case the inherited static method raises), and an optional class-supplied
`get_resource_url_detail` override (`Option.none` means the inherited
default `list-url + pk + "/"` is used). -/
structure ModelCls where
  meta : MetaOpts
  declaredList : Option String
  declaredDetail : Option (Inst → String)

/-- Exception outcomes of the embedded engine. -/
inductive RoaError where
  /-- A failed Python `assert`. -/
  | assertionError
  /-- `NotImplementedError` from codec selection on an unsupported
  format name (the configuration error of the spec's taxonomy). -/
  | notImplemented
  /-- The generic `Exception` raised by the base static
  `get_resource_url_list` when a model supplies none. -/
  | urlNotDefined
  /-- `ROAException`: a wrapped transport `HTTPError` on write, or an
  invalid deserialization of the response. -/
  | roaException
  /-- `TypeError` from `int(None)` during pk reconciliation. -/
  | typeError
  /-- Artifact of the embedding: the transport oracle ran out of
  responses (the real transport always answers). -/
  | noResponse
  /-- Artifact of the embedding: recursion fuel exhausted (never occurs
  when callers pass fuel above the inheritance-chain height). -/
  | noFuel
deriving DecidableEq, Repr

/-- The selected wire codec (renderer/parser pair). -/
inductive Codec where
  | json
  | xml
  | yaml
deriving DecidableEq, Repr

/-- The third branch of `get_renderer`, `get_parser` and
`get_serializer_content_type` tests `ROAException == 'yaml'`, comparing
the exception class to a string, which is always false in Python; the
source never compares `ROA_FORMAT` to `'yaml'`. -/
def roaExceptionEqYaml : Bool := false

/-- `ROAModel.get_renderer`, parameterized by `ROA_FORMAT`. -/
def get_renderer (format : String) : Except RoaError Codec :=
  if format = "json" then Except.ok Codec.json
  else if format = "xml" then Except.ok Codec.xml
  else if roaExceptionEqYaml then Except.ok Codec.yaml
  else Except.error RoaError.notImplemented

/-- `ROAModel.get_parser`, the response-body decoder selection,
parameterized by `ROA_FORMAT`. -/
def get_decoder (format : String) : Except RoaError Codec :=
  if format = "json" then Except.ok Codec.json
  else if format = "xml" then Except.ok Codec.xml
  else if roaExceptionEqYaml then Except.ok Codec.yaml
  else Except.error RoaError.notImplemented

/-- `ROAModel.get_serializer_content_type`: the single-entry
content-type header mapping. -/
def get_serializer_content_type (format : String) : Except RoaError (String × String) :=
  if format = "json" then Except.ok ("Content-Type", "application/json")
  else if format = "xml" then Except.ok ("Content-Type", "application/xml")
  else if roaExceptionEqYaml then Except.ok ("Content-Type", "text/x-yaml")
  else Except.error RoaError.notImplemented

/-- The configuration surface the URL helpers and codecs read:
`ROA_FORMAT`, `ROA_URL_OVERRIDES_LIST` (literal URLs) and
`ROA_URL_OVERRIDES_DETAIL` (callables taking the instance). -/
structure RoaEnv where
  format : String
  overridesList : List (String × String)
  overridesDetail : List (String × (Inst → String))

/-- The `'%s.%s' % (opts.app_label, opts.model_name)` override key. -/
def metaKey (m : MetaOpts) : String := m.appLabel ++ "." ++ m.modelName

/-- The class-supplied static `get_resource_url_list`, or the inherited
base static method, which raises. -/
def declaredListUrl (cls : ModelCls) : Except RoaError String :=
  match cls.declaredList with
  | some url => Except.ok url
  | Option.none => Except.error RoaError.urlNotDefined

/-- The curried helper `get_resource_url_list(opts, func)`:
`overridden and overridden or func()` with Python truthiness, so a
present but empty override string falls through to the class method. -/
def get_resource_url_list (env : RoaEnv) (cls : ModelCls) : Except RoaError String :=
  match lookupAssoc env.overridesList (metaKey cls.meta) with
  | some url => if url = "" then declaredListUrl cls else Except.ok url
  | Option.none => declaredListUrl cls

/-- The curried helper `get_resource_url_detail(opts, func)`:
`ROA_URL_OVERRIDES_DETAIL.get(key, func)(self)`, where `func` is the
class-supplied method or the inherited default
`"%s%s/" % (self.get_resource_url_list(), self.pk)`. -/
def get_resource_url_detail (env : RoaEnv) (cls : ModelCls) (self : Inst) :
    Except RoaError String :=
  match lookupAssoc env.overridesDetail (metaKey cls.meta) with
  | some f => Except.ok (f self)
  | Option.none =>
    match cls.declaredDetail with
    | some f => Except.ok (f self)
    | Option.none =>
      match get_resource_url_list env cls with
      | Except.ok listUrl =>
        Except.ok (listUrl ++ pyStr (getattr self cls.meta.pkAttname) ++ "/")
      | Except.error e => Except.error e

/-- An HTTP method of the transport collaborator. -/
inductive Method where
  | GET
  | POST
  | PUT
  | DELETE
deriving DecidableEq, Repr

/-- One dispatched transport call: method, target URL, and the
`str(meta)` of the inheritance level issuing it. -/
structure HttpCall where
  method : Method
  url : String
  level : String
deriving DecidableEq, Repr

/-- An observable event of a save/delete run: a transport call or a
lifecycle signal (`pre_save` / `post_save`) with its payload. -/
inductive Event where
  | http (c : HttpCall)
  | preSave (sender : String) (instance_ : Inst) (raw : Bool)
  | postSave (sender : String) (instance_ : Inst) (created : Bool) (raw : Bool)
deriving DecidableEq, Repr

/-- What the engine observes from one transport response: whether the
client raised `HTTPError`, the status code (read by `delete`), whether
the serializer validates the decoded body, and the validated field data
from which `serializer.Meta.model(**serializer.validated_data)` is
built. -/
structure HttpResponse where
  httpError : Bool
  status : Nat
  valid : Bool
  validatedData : Inst
deriving DecidableEq, Repr

/-- State threaded through a save: the mutable instance, the pending
transport responses, and the events emitted so far. -/
structure SaveState where
  inst : Inst
  responses : List HttpResponse
  events : List Event
deriving DecidableEq, Repr

/-- Result of a (partial) save run: the final state, or the raised
exception together with the events emitted before the raise. -/
abbrev SaveM := Except (RoaError × List Event) SaveState

def pushEvent (st : SaveState) (e : Event) : SaveState :=
  { st with events := st.events ++ [e] }

/-- The write calls (`POST`/`PUT` dispatches) of an event trace. -/
def writeCalls (evs : List Event) : List HttpCall :=
  evs.filterMap fun e =>
    match e with
    | Event.http c =>
      if c.method = Method.POST ∨ c.method = Method.PUT then some c else Option.none
    | _ => Option.none

/-- Per-save context: the configuration and the instance's own class
(`self.__class__`), whose serializer, pk property and URL methods are
used at every inheritance level. -/
structure SaveCtx where
  env : RoaEnv
  leafCls : ModelCls

/-- The tail of `save_base`: `if origin: signals.post_save.send(...)`.
`obj` is the transient instance deserialized from the response, to
which the local `self` was rebound just before the signal. -/
def finishSave (raw : Bool) (origin : Option String)
    (recordExists : Bool) (obj : Inst) (st : SaveState) : SaveM :=
  match origin with
  | some o => Except.ok (pushEvent st (Event.postSave o obj (!recordExists) raw))
  | Option.none => Except.ok st

/-- Lines 792-813 of `save_base`: parse the response body, strip
`UniqueValidator`s, validate, build the transient instance, and copy
its primary key onto `self` via `int(obj.pk)` with `ValueError`
fallback.  Parsing and validation outcomes come from the response
oracle (`r.valid`, `r.validatedData`). -/
def afterResponse (ctx : SaveCtx) (raw : Bool) (origin : Option String)
    (recordExists : Bool) (r : HttpResponse) (st : SaveState) : SaveM :=
  match get_decoder ctx.env.format with
  | Except.error e => Except.error (e, st.events)
  | Except.ok _ =>
    if !r.valid then Except.error (RoaError.roaException, st.events)
    else
      let obj := r.validatedData
      let leafPk := ctx.leafCls.meta.pkAttname
      let objPk := getattr obj leafPk
      match pyInt objPk with
      | Except.error PyIntErr.typeError => Except.error (RoaError.typeError, st.events)
      | Except.error PyIntErr.valueError =>
        finishSave raw origin recordExists obj
          { st with inst := setattr st.inst leafPk objPk }
      | Except.ok n =>
        finishSave raw origin recordExists obj
          { st with inst := setattr st.inst leafPk (Value.int n) }

/-- The speculative existence probe of `save_base` (lines 746-759): for
a custom primary-key field, `GET` the detail URL; a raised `HTTPError`
is caught and sets `pk_is_set = False`; a successful probe changes
nothing (its body is discarded).  Returns the possibly-updated
`pk_is_set` flag. -/
def probeCustomPk (ctx : SaveCtx) (meta : MetaOpts) (pkIsSet : Bool) (st : SaveState) :
    Except (RoaError × List Event) (Bool × SaveState) :=
  if customPkP meta then
    match get_resource_url_detail ctx.env ctx.leafCls st.inst with
    | Except.error e => Except.error (e, st.events)
    | Except.ok du =>
      match st.responses with
      | [] => Except.error (RoaError.noResponse, st.events)
      | rp :: rs =>
        let st1 := pushEvent { st with responses := rs }
          (Event.http ⟨Method.GET, du, meta.modelName⟩)
        if rp.httpError then Except.ok (false, st1) else Except.ok (pkIsSet, st1)
  else Except.ok (pkIsSet, st)

/-- Lines 728-813 of `save_base`: the concrete-level block.  Serializes
the payload (so codec selection errors surface here), probes a custom
primary key, decides update (`PUT` detail) versus create (`POST` list)
by `force_update or pk_is_set and not self.pk is None`, dispatches,
wraps transport `HTTPError` in `ROAException`, and reconciles the
response.  `meta` is the level being saved; `self.pk` always reads the
leaf class's primary-key attribute. -/
def saveConcrete (ctx : SaveCtx) (raw : Bool) (meta : MetaOpts) (origin : Option String)
    (forceUpdate : Bool) (st : SaveState) : SaveM :=
  let pkVal := getattr st.inst meta.pkAttname
  let pkIsSet : Bool := decide (pkVal ≠ Value.none)
  match get_renderer ctx.env.format with
  | Except.error e => Except.error (e, st.events)
  | Except.ok _ =>
    match get_serializer_content_type ctx.env.format with
    | Except.error e => Except.error (e, st.events)
    | Except.ok _ =>
      match probeCustomPk ctx meta pkIsSet st with
      | Except.error e => Except.error e
      | Except.ok (pkIsSet2, st2) =>
        let selfPk := getattr st2.inst ctx.leafCls.meta.pkAttname
        if forceUpdate || (pkIsSet2 && decide (selfPk ≠ Value.none)) then
          match get_resource_url_detail ctx.env ctx.leafCls st2.inst with
          | Except.error e => Except.error (e, st2.events)
          | Except.ok du =>
            match st2.responses with
            | [] => Except.error (RoaError.noResponse, st2.events)
            | r :: rs =>
              let st3 := pushEvent { st2 with responses := rs }
                (Event.http ⟨Method.PUT, du, meta.modelName⟩)
              if r.httpError then Except.error (RoaError.roaException, st3.events)
              else afterResponse ctx raw origin true r st3
        else
          match get_resource_url_list ctx.env ctx.leafCls with
          | Except.error e => Except.error (e, st2.events)
          | Except.ok lu =>
            match st2.responses with
            | [] => Except.error (RoaError.noResponse, st2.events)
            | r :: rs =>
              let st3 := pushEvent { st2 with responses := rs }
                (Event.http ⟨Method.POST, lu, meta.modelName⟩)
              if r.httpError then Except.error (RoaError.roaException, st3.events)
              else afterResponse ctx raw origin false r st3

/-- The `for parent, field in meta.parents.items()` loop of `save_base`
(lines 714-724): fill an absent ancestor pk from the parent-link field,
recursively save that level (`recur`), then write
`self._get_pk_val(parent._meta)` into the parent-link field. -/
def saveParentsWith (recur : MetaOpts → Option String → SaveState → SaveM)
    (org : Option String) : List (MetaOpts × Option String) → SaveState → SaveM
  | [], st => Except.ok st
  | (parent, field) :: rest, st =>
    let st1 :=
      match field with
      | some f =>
        if getattr st.inst parent.pkAttname = Value.none ∧ getattr st.inst f ≠ Value.none
        then { st with inst := setattr st.inst parent.pkAttname (getattr st.inst f) }
        else st
      | Option.none => st
    match recur parent org st1 with
    | Except.error e => Except.error e
    | Except.ok st2 =>
      let st3 :=
        match field with
        | some f =>
          { st2 with inst := setattr st2.inst f (getattr st2.inst parent.pkAttname) }
        | Option.none => st2
      saveParentsWith recur org rest st3

/-- One `save_base` activation at inheritance level `meta` (the `cls`
argument of the source): the force-flag assert, the `pre_save` signal,
the recursive parent saves, the early return for proxies, and the
concrete-level block.  `fuel` bounds the recursion depth. -/
def saveLevel (ctx : SaveCtx) : Nat → Bool → MetaOpts → Option String → Bool → Bool →
    SaveState → SaveM
  | fuel, raw, meta, origin, forceInsert, forceUpdate, st =>
    if forceInsert && forceUpdate then Except.error (RoaError.assertionError, st.events)
    else
      match fuel with
      | 0 => Except.error (RoaError.noFuel, st.events)
      | fuel' + 1 =>
        let st1 :=
          match origin with
          | some o =>
            if meta.autoCreated then st else pushEvent st (Event.preSave o st.inst raw)
          | Option.none => st
        let afterParents : SaveM :=
          if !raw || meta.proxy then
            saveParentsWith (fun p o s => saveLevel ctx fuel' false p o false false s)
              (if meta.proxy then some meta.modelName else Option.none) meta.parents st1
          else Except.ok st1
        match afterParents with
        | Except.error e => Except.error e
        | Except.ok st2 =>
          if meta.proxy then Except.ok st2
          else saveConcrete ctx raw meta origin forceUpdate st2

/-- `ROAModel.save_base` called from `save` (so with `cls=None`,
`origin=None`): `cls` becomes the instance's own class and `origin` the
class unless it is a proxy. -/
def save_base (ctx : SaveCtx) (fuel : Nat) (raw forceInsert forceUpdate : Bool)
    (st : SaveState) : SaveM :=
  let origin :=
    if ctx.leafCls.meta.proxy then Option.none else some ctx.leafCls.meta.modelName
  saveLevel ctx fuel raw ctx.leafCls.meta origin forceInsert forceUpdate st

/-- `ROAModel.delete` (lines 817-840): assert a present primary key,
resolve the detail URL (also evaluated for the log line), build the
content-type header, dispatch `DELETE`, and clear the pk only when the
status is 200, 202 or 204; any other status changes nothing and raises
nothing. -/
def delete (env : RoaEnv) (cls : ModelCls) (self : Inst) (resp : HttpResponse) :
    Except (RoaError × List Event) (Inst × List Event) :=
  if getattr self cls.meta.pkAttname = Value.none then
    Except.error (RoaError.assertionError, [])
  else
    match get_resource_url_detail env cls self with
    | Except.error e => Except.error (e, [])
    | Except.ok url =>
      match get_serializer_content_type env.format with
      | Except.error e => Except.error (e, [])
      | Except.ok _ =>
        let events := [Event.http ⟨Method.DELETE, url, cls.meta.modelName⟩]
        if resp.status = 200 ∨ resp.status = 202 ∨ resp.status = 204 then
          Except.ok (setattr self cls.meta.pkAttname Value.none, events)
        else Except.ok (self, events)

/-! Concrete fixtures used by witnesses and counterexamples. -/

/-- Configuration with `ROA_FORMAT = 'json'` and empty override tables. -/
def jsonEnv : RoaEnv := { format := "json", overridesList := [], overridesDetail := [] }

/-- A single-level model with the implicit `id` primary key. -/
def widgetMeta : MetaOpts := MetaOpts.mk "id" false "app" "widget" false []

def widgetCls : ModelCls :=
  { meta := widgetMeta, declaredList := some "/widgets/", declaredDetail := Option.none }

def widgetCtx : SaveCtx := { env := jsonEnv, leafCls := widgetCls }

/-- A two-level multi-table-inheritance chain: root model `a` with pk
`id`; leaf model `b` whose pk is the parent-link attname `a_ptr_id`. -/
def metaA : MetaOpts := MetaOpts.mk "id" false "app" "a" false []

def metaB : MetaOpts := MetaOpts.mk "a_ptr_id" false "app" "b" false [(metaA, some "a_ptr_id")]

def bCls : ModelCls :=
  { meta := metaB, declaredList := some "/bs/", declaredDetail := Option.none }

def bCtx : SaveCtx := { env := jsonEnv, leafCls := bCls }

/-- A single-level model with a custom primary-key field `slug`. -/
def metaC : MetaOpts := MetaOpts.mk "slug" false "app" "c" false []

def cCls : ModelCls :=
  { meta := metaC, declaredList := some "/cs/", declaredDetail := Option.none }

def cCtx : SaveCtx := { env := jsonEnv, leafCls := cCls }

/-- A successful response whose validated data carries the given pk. -/
def okResp (pkAtt : String) (v : Value) (extra : Inst) : HttpResponse :=
  { httpError := false, status := 200, valid := true,
    validatedData := (pkAtt, v) :: extra }

/-- A transport call that raises `HTTPError`. -/
def errResp : HttpResponse :=
  { httpError := true, status := 500, valid := false, validatedData := [] }

/-- The claim's decision-rule ingredient "the record is confirmed
existing": the instance's primary key is non-empty, and — when the
model has a custom primary-key field, so that `save_base` probes the
detail URL — the probe (the first pending transport response) does not
raise `HTTPError`. -/
def recordConfirmed (ctx : SaveCtx) (st : SaveState) : Prop :=
  getattr st.inst ctx.leafCls.meta.pkAttname ≠ Value.none ∧
  (customPkP ctx.leafCls.meta → ∀ rp rs, st.responses = rp :: rs → rp.httpError = false)

/-- The claim's update/create decision rule: update iff `force_update`
is set, or the record is confirmed existing and the instance's primary
key is non-empty. -/
def updateDecision (ctx : SaveCtx) (fu : Bool) (st : SaveState) : Prop :=
  fu = true ∨
    (recordConfirmed ctx st ∧ getattr st.inst ctx.leafCls.meta.pkAttname ≠ Value.none)

/-- A fresh leaf instance of the two-level chain. -/
def bFreshInst : Inst := [("id", Value.none), ("a_ptr_id", Value.none), ("name", Value.str "x")]

/-- Fresh two-level save: the transport assigns pk 7 at the root-level
create, answers the leaf-level probe, and assigns pk 8 at the
leaf-level create. -/
def bSt0 : SaveState :=
  { inst := bFreshInst,
    responses := [okResp "a_ptr_id" (Value.int 7) [],
      okResp "a_ptr_id" (Value.int 0) [], okResp "a_ptr_id" (Value.int 8) []],
    events := [] }

/-- A leaf instance of the chain with the parent link already set but
the root pk attribute still absent. -/
def b10Inst : Inst := [("id", Value.none), ("a_ptr_id", Value.int 5), ("name", Value.str "x")]

def b10St0 : SaveState :=
  { inst := b10Inst,
    responses := [okResp "a_ptr_id" (Value.int 5) [],
      okResp "a_ptr_id" (Value.int 0) [], okResp "a_ptr_id" (Value.int 5) []],
    events := [] }

/-- A custom-primary-key instance whose existence probe raises. -/
def cInst : Inst := [("slug", Value.str "s5"), ("name", Value.str "n")]

def cSt0 : SaveState :=
  { inst := cInst,
    responses := [errResp, okResp "slug" (Value.str "s5") [("name", Value.str "n")]],
    events := [] }

/-- Probe raises and `force_update` is not set: the save creates. -/
def cW0 : SaveState :=
  { inst := cInst, responses := [errResp, okResp "slug" (Value.str "s9") []], events := [] }

/-- The final state of running `save_base cCtx 1 false false false cW0`. -/
def cW1 : SaveState :=
  { inst := [("slug", Value.str "s9"), ("name", Value.str "n")],
    responses := [],
    events := [Event.preSave "c" cInst false,
      Event.http ⟨Method.GET, "/cs/s5/", "c"⟩,
      Event.http ⟨Method.POST, "/cs/", "c"⟩,
      Event.postSave "c" [("slug", Value.str "s9")] true false] }

/-- A fresh widget instance and a server reply assigning id 7. -/
def wInst0 : Inst := [("id", Value.none), ("name", Value.str "x")]

def wResp : HttpResponse := okResp "id" (Value.int 7) [("name", Value.str "x")]

def wSt0 : SaveState := { inst := wInst0, responses := [wResp], events := [] }

/-- The final state of running `save_base widgetCtx 1 false false false wSt0`. -/
def wSt1 : SaveState :=
  { inst := [("id", Value.int 7), ("name", Value.str "x")],
    responses := [],
    events := [Event.preSave "widget" wInst0 false,
      Event.http ⟨Method.POST, "/widgets/", "widget"⟩,
      Event.postSave "widget" [("id", Value.int 7), ("name", Value.str "x")] true false] }

/-- A persisted widget instance, for delete runs. -/
def dInst : Inst := [("id", Value.int 7), ("name", Value.str "x")]

def resp204 : HttpResponse :=
  { httpError := false, status := 204, valid := true, validatedData := [] }

def resp500 : HttpResponse :=
  { httpError := false, status := 500, valid := false, validatedData := [] }

/-- Configuration carrying a detail-URL override for `app.widget`. -/
def envOverride : RoaEnv :=
  { format := "json", overridesList := [],
    overridesDetail := [("app.widget", fun _ => "/over/9/")] }

/-- A model class supplying no list-URL static method. -/
def bareCls : ModelCls :=
  { meta := MetaOpts.mk "id" false "app" "bare" false [],
    declaredList := Option.none, declaredDetail := Option.none }

/-! Frame lemmas for instance attributes and write-call traces. -/

theorem getattr_setattr_self (i : Inst) (n : String) (v : Value) :
    getattr (setattr i n v) n = v := by
  induction i with
  | nil => simp [setattr, getattr, lookupAssoc]
  | cons hd tl ih =>
    obtain ⟨k, w⟩ := hd
    by_cases h : k = n
    · subst h
      simp [setattr, getattr, lookupAssoc]
    · simpa [setattr, h, getattr, lookupAssoc] using ih

theorem getattr_setattr_ne (i : Inst) (n a : String) (v : Value) (h : a ≠ n) :
    getattr (setattr i n v) a = getattr i a := by
  induction i with
  | nil => simp [setattr, getattr, lookupAssoc, (Ne.symm h)]
  | cons hd tl ih =>
    obtain ⟨k, w⟩ := hd
    by_cases hk : k = n
    · subst hk
      simp [setattr, getattr, lookupAssoc, Ne.symm h]
    · by_cases ha : k = a
      · subst ha
        simp [setattr, hk, getattr, lookupAssoc]
      · simpa [setattr, hk, getattr, lookupAssoc, ha] using ih

@[simp] theorem writeCalls_nil : writeCalls [] = [] := rfl

@[simp] theorem writeCalls_append (xs ys : List Event) :
    writeCalls (xs ++ ys) = writeCalls xs ++ writeCalls ys := by
  simp [writeCalls]

@[simp] theorem writeCalls_preSave (o : String) (i : Inst) (r : Bool) :
    writeCalls [Event.preSave o i r] = [] := rfl

@[simp] theorem writeCalls_postSave (o : String) (i : Inst) (c r : Bool) :
    writeCalls [Event.postSave o i c r] = [] := rfl

@[simp] theorem writeCalls_get (u lv : String) :
    writeCalls [Event.http ⟨Method.GET, u, lv⟩] = [] := rfl

theorem writeCalls_http_write (c : HttpCall)
    (h : c.method = Method.POST ∨ c.method = Method.PUT) :
    writeCalls [Event.http c] = [c] := by
  simp [writeCalls, h]

@[simp] theorem writeCalls_cons_preSave (o : String) (i : Inst) (r : Bool) (l : List Event) :
    writeCalls (Event.preSave o i r :: l) = writeCalls l := by
  simp [writeCalls]

@[simp] theorem writeCalls_cons_postSave (o : String) (i : Inst) (c r : Bool)
    (l : List Event) :
    writeCalls (Event.postSave o i c r :: l) = writeCalls l := by
  simp [writeCalls]

@[simp] theorem writeCalls_cons_get (u lv : String) (l : List Event) :
    writeCalls (Event.http ⟨Method.GET, u, lv⟩ :: l) = writeCalls l := by
  simp [writeCalls]

theorem writeCalls_cons_http (c : HttpCall) (l : List Event)
    (h : c.method = Method.POST ∨ c.method = Method.PUT) :
    writeCalls (Event.http c :: l) = c :: writeCalls l := by
  simp [writeCalls, h]

/-! Characterizations of the phases of a `save_base` run. -/

/-- What a successful `afterResponse` does: only the leaf primary key
is written onto `self` (with the `int(...)`/`ValueError` coercion), and
the `post_save` signal carries the transient instance deserialized from
the response. -/
theorem afterResponse_run (ctx : SaveCtx) (raw : Bool) (o : String) (re : Bool)
    (r : HttpResponse) (st st' : SaveState)
    (hok : afterResponse ctx raw (some o) re r st = Except.ok st') :
    st' = { inst := setattr st.inst ctx.leafCls.meta.pkAttname
              (pyCoerce (getattr r.validatedData ctx.leafCls.meta.pkAttname)),
            responses := st.responses,
            events := st.events ++ [Event.postSave o r.validatedData (!re) raw] } := by
  simp only [afterResponse, finishSave] at hok
  split at hok
  · exact Except.noConfusion hok
  · split at hok
    · exact Except.noConfusion hok
    · split at hok
      · exact Except.noConfusion hok
      next heq =>
        cases hok
        simp [pushEvent, pyCoerce, heq]
      next n heq =>
        cases hok
        simp [pushEvent, pyCoerce, heq]

/-- What a successful probe phase does: nothing for an implicit
(`pk`/`id`) primary key; for a custom primary key it resolves the
detail URL, consumes one response as a `GET`, and falsifies `pk_is_set`
exactly when that response raised `HTTPError`. -/
theorem probeCustomPk_run (ctx : SaveCtx) (meta : MetaOpts) (b b2 : Bool)
    (st st2 : SaveState)
    (hok : probeCustomPk ctx meta b st = Except.ok (b2, st2)) :
    (¬ customPkP meta ∧ b2 = b ∧ st2 = st) ∨
    (customPkP meta ∧ ∃ du rp rs,
      get_resource_url_detail ctx.env ctx.leafCls st.inst = Except.ok du ∧
      st.responses = rp :: rs ∧
      b2 = (if rp.httpError then false else b) ∧
      st2 = { inst := st.inst, responses := rs,
              events := st.events ++ [Event.http ⟨Method.GET, du, meta.modelName⟩] }) := by
  simp only [probeCustomPk] at hok
  split at hok
  next hc =>
    refine Or.inr ⟨hc, ?_⟩
    split at hok
    · exact Except.noConfusion hok
    next du hdu =>
      split at hok
      · exact Except.noConfusion hok
      next rp rs hresp =>
        split at hok
        next herr =>
          cases hok
          exact ⟨du, rp, rs, hdu, hresp, by simp [herr], by simp [pushEvent]⟩
        next herr =>
          cases hok
          exact ⟨du, rp, rs, hdu, hresp, by simp [herr], by simp [pushEvent]⟩
  next hc =>
    cases hok
    exact Or.inl ⟨hc, rfl, rfl⟩

/-- For an implicit primary key the source's branch condition
`force_update or pk_is_set and not self.pk is None` coincides with the
spec's decision rule. -/
theorem updateDecision_iff_noCustom (ctx : SaveCtx) (fu : Bool) (st : SaveState)
    (hnc : ¬ customPkP ctx.leafCls.meta) :
    updateDecision ctx fu st ↔
      (fu || (decide (getattr st.inst ctx.leafCls.meta.pkAttname ≠ Value.none) &&
        decide (getattr st.inst ctx.leafCls.meta.pkAttname ≠ Value.none))) = true := by
  unfold updateDecision recordConfirmed
  simp only [Bool.or_eq_true, Bool.and_eq_true, decide_eq_true_iff]
  constructor
  · rintro (h | ⟨⟨h, _⟩, _⟩)
    · exact Or.inl h
    · exact Or.inr ⟨h, h⟩
  · rintro (h | ⟨h, _⟩)
    · exact Or.inl h
    · exact Or.inr ⟨⟨h, fun hc => absurd hc hnc⟩, h⟩

/-- For a custom primary key the branch condition additionally factors
through the probe outcome on the head pending response. -/
theorem updateDecision_iff_custom (ctx : SaveCtx) (fu : Bool) (st : SaveState)
    (hc : customPkP ctx.leafCls.meta) (rp : HttpResponse) (rs : List HttpResponse)
    (hresp : st.responses = rp :: rs) :
    updateDecision ctx fu st ↔
      (fu || ((if rp.httpError then false else
          decide (getattr st.inst ctx.leafCls.meta.pkAttname ≠ Value.none)) &&
        decide (getattr st.inst ctx.leafCls.meta.pkAttname ≠ Value.none))) = true := by
  unfold updateDecision recordConfirmed
  constructor
  · rintro (h | ⟨⟨hpk, himp⟩, _⟩)
    · simp [h]
    · have herr : rp.httpError = false := himp hc rp rs hresp
      simp [herr, hpk]
  · intro h
    cases hfu : fu with
    | true => exact Or.inl rfl
    | false =>
      rw [hfu, Bool.false_or] at h
      cases herr : rp.httpError with
      | true =>
        rw [herr] at h
        simp at h
      | false =>
        rw [herr] at h
        simp at h
        refine Or.inr ⟨⟨h, ?_⟩, h⟩
        intro _ rp2 rs2 h2
        rw [hresp] at h2
        cases h2
        exact herr

/-- Full characterization of a successful concrete-level block at the
instance's own level: it consumes the probe response (custom pk only)
and exactly one write response, dispatches exactly one write call whose
method follows the update/create decision rule, writes back only the
coerced primary key, and emits `post_save` carrying the deserialized
transient instance. -/
theorem saveConcrete_run (ctx : SaveCtx) (raw fu : Bool) (o : String) (st st' : SaveState)
    (hok : saveConcrete ctx raw ctx.leafCls.meta (some o) fu st = Except.ok st') :
    ∃ (probeEv : List Event) (r : HttpResponse) (rest : List HttpResponse) (c : HttpCall),
      st' = { inst := setattr st.inst ctx.leafCls.meta.pkAttname
                (pyCoerce (getattr r.validatedData ctx.leafCls.meta.pkAttname)),
              responses := rest,
              events := st.events ++ probeEv ++ [Event.http c,
                Event.postSave o r.validatedData (decide (c.method = Method.POST)) raw] } ∧
      c.level = ctx.leafCls.meta.modelName ∧
      (c.method = Method.PUT ∨ c.method = Method.POST) ∧
      (c.method = Method.PUT ↔ updateDecision ctx fu st) ∧
      (c.method = Method.PUT →
        get_resource_url_detail ctx.env ctx.leafCls st.inst = Except.ok c.url) ∧
      (c.method = Method.POST →
        get_resource_url_list ctx.env ctx.leafCls = Except.ok c.url) ∧
      ((¬ customPkP ctx.leafCls.meta ∧ st.responses = r :: rest ∧ probeEv = []) ∨
       (customPkP ctx.leafCls.meta ∧ ∃ du rp,
          st.responses = rp :: r :: rest ∧
          get_resource_url_detail ctx.env ctx.leafCls st.inst = Except.ok du ∧
          probeEv = [Event.http ⟨Method.GET, du, ctx.leafCls.meta.modelName⟩])) := by
  simp only [saveConcrete] at hok
  split at hok
  · exact Except.noConfusion hok
  split at hok
  · exact Except.noConfusion hok
  split at hok
  · exact Except.noConfusion hok
  next b2 st2 hprobe =>
  rcases probeCustomPk_run ctx ctx.leafCls.meta _ b2 st st2 hprobe with
    ⟨hnc, hb2, hst2⟩ | ⟨hc, du, rp, rs, hdu, hresp, hb2, hst2⟩
  · rw [hst2] at hok
    subst hb2
    split at hok
    next hcond =>
      split at hok
      · exact Except.noConfusion hok
      next du2 hdu2 =>
        split at hok
        · exact Except.noConfusion hok
        next r rs2 hresp2 =>
          split at hok
          next herr2 => exact Except.noConfusion hok
          next herr2 =>
            have hrun := afterResponse_run ctx raw o true r _ st' hok
            refine ⟨[], r, rs2, ⟨Method.PUT, du2, ctx.leafCls.meta.modelName⟩,
              ?_, rfl, Or.inl rfl, ?_, fun _ => hdu2, ?_, Or.inl ⟨hnc, hresp2, rfl⟩⟩
            · rw [hrun]
              simp [pushEvent, List.append_assoc]
            · exact iff_of_true rfl
                ((updateDecision_iff_noCustom ctx fu st hnc).mpr hcond)
            · intro h
              exact Method.noConfusion h
    next hcond =>
      split at hok
      · exact Except.noConfusion hok
      next lu hlu =>
        split at hok
        · exact Except.noConfusion hok
        next r rs2 hresp2 =>
          split at hok
          next herr2 => exact Except.noConfusion hok
          next herr2 =>
            have hrun := afterResponse_run ctx raw o false r _ st' hok
            refine ⟨[], r, rs2, ⟨Method.POST, lu, ctx.leafCls.meta.modelName⟩,
              ?_, rfl, Or.inr rfl, ?_, ?_, fun _ => hlu, Or.inl ⟨hnc, hresp2, rfl⟩⟩
            · rw [hrun]
              simp [pushEvent, List.append_assoc]
            · refine iff_of_false (by simp) ?_
              intro hud
              exact hcond ((updateDecision_iff_noCustom ctx fu st hnc).mp hud)
            · intro h
              exact Method.noConfusion h
  · subst hst2
    split at hok
    next hcond =>
      split at hok
      · exact Except.noConfusion hok
      next du2 hdu2 =>
        split at hok
        · exact Except.noConfusion hok
        next r rs2 hresp2 =>
          split at hok
          next herr2 => exact Except.noConfusion hok
          next herr2 =>
            have hrun := afterResponse_run ctx raw o true r _ st' hok
            have hrs : rs = r :: rs2 := hresp2
            have hresp' : st.responses = rp :: r :: rs2 := by rw [hresp, hrs]
            rw [hb2] at hcond
            refine ⟨[Event.http ⟨Method.GET, du, ctx.leafCls.meta.modelName⟩], r, rs2,
              ⟨Method.PUT, du2, ctx.leafCls.meta.modelName⟩,
              ?_, rfl, Or.inl rfl, ?_, fun _ => hdu2, ?_,
              Or.inr ⟨hc, du, rp, hresp', hdu, rfl⟩⟩
            · rw [hrun]
              simp [pushEvent, List.append_assoc]
            · exact iff_of_true rfl
                ((updateDecision_iff_custom ctx fu st hc rp (r :: rs2) hresp').mpr hcond)
            · intro h
              exact Method.noConfusion h
    next hcond =>
      split at hok
      · exact Except.noConfusion hok
      next lu hlu =>
        split at hok
        · exact Except.noConfusion hok
        next r rs2 hresp2 =>
          split at hok
          next herr2 => exact Except.noConfusion hok
          next herr2 =>
            have hrun := afterResponse_run ctx raw o false r _ st' hok
            have hrs : rs = r :: rs2 := hresp2
            have hresp' : st.responses = rp :: r :: rs2 := by rw [hresp, hrs]
            rw [hb2] at hcond
            refine ⟨[Event.http ⟨Method.GET, du, ctx.leafCls.meta.modelName⟩], r, rs2,
              ⟨Method.POST, lu, ctx.leafCls.meta.modelName⟩,
              ?_, rfl, Or.inr rfl, ?_, ?_, fun _ => hlu,
              Or.inr ⟨hc, du, rp, hresp', hdu, rfl⟩⟩
            · rw [hrun]
              simp [pushEvent, List.append_assoc]
            · refine iff_of_false (by simp) ?_
              intro hud
              exact hcond
                ((updateDecision_iff_custom ctx fu st hc rp (r :: rs2) hresp').mp hud)
            · intro h
              exact Method.noConfusion h

/-- Full characterization of a successful `save_base` on a non-proxy,
non-auto-created model without concrete ancestors: one `pre_save`, the
optional probe, exactly one write dispatch decided by the update/create
rule, the pk-only write-back, and one `post_save` carrying the
deserialized response instance. -/
theorem save_base_noParents_run (ctx : SaveCtx) (fuel : Nat) (fi fu : Bool)
    (st st' : SaveState)
    (hpar : ctx.leafCls.meta.parents = [])
    (hproxy : ctx.leafCls.meta.proxy = false)
    (hauto : ctx.leafCls.meta.autoCreated = false)
    (hok : save_base ctx fuel false fi fu st = Except.ok st') :
    ∃ (probeEv : List Event) (r : HttpResponse) (rest : List HttpResponse) (c : HttpCall),
      st' = { inst := setattr st.inst ctx.leafCls.meta.pkAttname
                (pyCoerce (getattr r.validatedData ctx.leafCls.meta.pkAttname)),
              responses := rest,
              events := st.events
                ++ [Event.preSave ctx.leafCls.meta.modelName st.inst false]
                ++ probeEv ++ [Event.http c,
                  Event.postSave ctx.leafCls.meta.modelName r.validatedData
                    (decide (c.method = Method.POST)) false] } ∧
      c.level = ctx.leafCls.meta.modelName ∧
      (c.method = Method.PUT ∨ c.method = Method.POST) ∧
      (c.method = Method.PUT ↔ updateDecision ctx fu st) ∧
      (c.method = Method.PUT →
        get_resource_url_detail ctx.env ctx.leafCls st.inst = Except.ok c.url) ∧
      (c.method = Method.POST →
        get_resource_url_list ctx.env ctx.leafCls = Except.ok c.url) ∧
      ((¬ customPkP ctx.leafCls.meta ∧ st.responses = r :: rest ∧ probeEv = []) ∨
       (customPkP ctx.leafCls.meta ∧ ∃ du rp,
          st.responses = rp :: r :: rest ∧
          get_resource_url_detail ctx.env ctx.leafCls st.inst = Except.ok du ∧
          probeEv = [Event.http ⟨Method.GET, du, ctx.leafCls.meta.modelName⟩])) := by
  cases fuel with
  | zero =>
    simp [save_base, saveLevel, hproxy] at hok
    split at hok
    · exact Except.noConfusion hok
    · exact Except.noConfusion hok
  | succ f =>
    simp only [save_base, saveLevel, hproxy] at hok
    simp [hauto, hpar, saveParentsWith] at hok
    split at hok
    · exact Except.noConfusion hok
    next hff =>
      rcases saveConcrete_run ctx false fu ctx.leafCls.meta.modelName
          (pushEvent st (Event.preSave ctx.leafCls.meta.modelName st.inst false)) st' hok with
        ⟨probeEv, r, rest, c, hst, hlev, hm, hiff, hput, hpost, hloc⟩
      refine ⟨probeEv, r, rest, c, ?_, hlev, hm, hiff, hput, hpost, hloc⟩
      rw [hst]
      simp [pushEvent, List.append_assoc]

/-! Claim theorems. -/

/-- C1: saving a non-proxy instance with no ancestors dispatches
exactly one write call (`POST`/`PUT`); it is a `PUT` to the detail URL
iff `force_update` is set or the record is confirmed existing and the
instance's primary key is non-empty, and a `POST` to the list URL
otherwise; in particular an absent primary key without `force_update`
always yields a create and never an update.  (The speculative existence
probe of a custom primary key is a `GET`, not a write dispatch.) -/
theorem save_issues_single_write_call (ctx : SaveCtx) (fuel : Nat) (fi fu : Bool)
    (st st' : SaveState)
    (hpar : ctx.leafCls.meta.parents = [])
    (hproxy : ctx.leafCls.meta.proxy = false)
    (hauto : ctx.leafCls.meta.autoCreated = false)
    (hok : save_base ctx fuel false fi fu st = Except.ok st') :
    ∃ c : HttpCall,
      writeCalls st'.events = writeCalls st.events ++ [c] ∧
      (c.method = Method.PUT ↔ updateDecision ctx fu st) ∧
      (c.method = Method.PUT →
        get_resource_url_detail ctx.env ctx.leafCls st.inst = Except.ok c.url) ∧
      (c.method ≠ Method.PUT → c.method = Method.POST ∧
        get_resource_url_list ctx.env ctx.leafCls = Except.ok c.url) ∧
      (getattr st.inst ctx.leafCls.meta.pkAttname = Value.none → fu = false →
        c.method = Method.POST) := by
  rcases save_base_noParents_run ctx fuel fi fu st st' hpar hproxy hauto hok with
    ⟨probeEv, r, rest, c, hst, hlev, hm, hiff, hput, hpost, hloc⟩
  have hprobe0 : writeCalls probeEv = [] := by
    rcases hloc with ⟨_, _, hpe⟩ | ⟨_, du, rp, _, _, hpe⟩
    · rw [hpe]
      rfl
    · rw [hpe]
      simp
  have hwc : writeCalls [Event.http c,
      Event.postSave ctx.leafCls.meta.modelName r.validatedData
        (decide (c.method = Method.POST)) false] = [c] := by
    rcases hm with h | h
    · simp [writeCalls, h]
    · simp [writeCalls, h]
  refine ⟨c, ?_, hiff, hput, ?_, ?_⟩
  · rw [hst]
    simp [hprobe0, hwc]
  · intro h
    rcases hm with hPut | hPost
    · exact absurd hPut h
    · exact ⟨hPost, hpost hPost⟩
  · intro hpk hfu
    rcases hm with hPut | hPost
    · exfalso
      have hud := hiff.mp hPut
      unfold updateDecision recordConfirmed at hud
      rcases hud with h1 | ⟨⟨h1, _⟩, _⟩
      · rw [hfu] at h1
        exact Bool.noConfusion h1
      · exact h1 hpk
    · exact hPost

/-- C1 witness: a fresh widget save issues one create. -/
theorem save_issues_single_write_call_witness :
    ∃ c : HttpCall,
      writeCalls wSt1.events = writeCalls wSt0.events ++ [c] ∧
      (c.method = Method.PUT ↔ updateDecision widgetCtx false wSt0) ∧
      (c.method = Method.PUT →
        get_resource_url_detail widgetCtx.env widgetCtx.leafCls wSt0.inst = Except.ok c.url) ∧
      (c.method ≠ Method.PUT → c.method = Method.POST ∧
        get_resource_url_list widgetCtx.env widgetCtx.leafCls = Except.ok c.url) ∧
      (getattr wSt0.inst widgetCtx.leafCls.meta.pkAttname = Value.none → false = false →
        c.method = Method.POST) :=
  save_issues_single_write_call widgetCtx 1 false false wSt0 wSt1 rfl rfl rfl (by decide)

/-- C2 (code bug): a fresh two-level inheritance save does issue one
create per level, root level first, but the leaf's parent-pointer field
ends up holding the leaf-level response pk (8), not the root's assigned
pk (7): each level's `self.pk = int(obj.pk)` writes the leaf attribute,
and the parent loop then overwrites it with the never-updated root
attribute (`None`). -/
theorem mti_parent_pointer_code_divergence :
    (save_base bCtx 2 false false false bSt0).toOption.map
        (fun st => (writeCalls st.events, getattr st.inst "a_ptr_id", getattr st.inst "id"))
      = some ([⟨Method.POST, "/bs/", "a"⟩, ⟨Method.POST, "/bs/", "b"⟩],
          Value.int 8, Value.none) ∧
    getattr (okResp "a_ptr_id" (Value.int 7) []).validatedData "a_ptr_id" = Value.int 7 ∧
    Value.int 8 ≠ Value.int 7 := by
  decide

/-- C3: delete on an instance with a present primary key dispatches one
`DELETE` to the detail URL and raises nothing; status 200/202/204
clears the primary key to absent, any other status returns the instance
unchanged. -/
theorem delete_status_policy (env : RoaEnv) (cls : ModelCls) (self : Inst)
    (resp : HttpResponse) (url : String) (ct : String × String)
    (hpk : getattr self cls.meta.pkAttname ≠ Value.none)
    (hurl : get_resource_url_detail env cls self = Except.ok url)
    (hct : get_serializer_content_type env.format = Except.ok ct) :
    delete env cls self resp =
      Except.ok
        ((if resp.status = 200 ∨ resp.status = 202 ∨ resp.status = 204 then
            setattr self cls.meta.pkAttname Value.none
          else self),
         [Event.http ⟨Method.DELETE, url, cls.meta.modelName⟩]) := by
  unfold delete
  rw [if_neg hpk, hurl, hct]
  dsimp only
  split <;> rfl

/-- C3 witness: status 204 clears the pk. -/
theorem delete_status_policy_witness :
    delete jsonEnv widgetCls dInst resp204 =
      Except.ok
        ((if resp204.status = 200 ∨ resp204.status = 202 ∨ resp204.status = 204 then
            setattr dInst widgetCls.meta.pkAttname Value.none
          else dInst),
         [Event.http ⟨Method.DELETE, "/widgets/7/", widgetCls.meta.modelName⟩]) :=
  delete_status_policy jsonEnv widgetCls dInst resp204 "/widgets/7/"
    ("Content-Type", "application/json") (by decide) rfl rfl

/-- C4 (code bug): `json` and `xml` select the matching codec pair and
content-type header, and an unknown format raises at first use; but
`yaml` also raises `NotImplementedError`, because the source compares
`ROAException` — an exception class — to `'yaml'` instead of comparing
`ROA_FORMAT`, so the yaml branch is unreachable. -/
theorem codec_selection_yaml_divergence :
    get_renderer "json" = Except.ok Codec.json ∧
    get_decoder "json" = Except.ok Codec.json ∧
    get_serializer_content_type "json" = Except.ok ("Content-Type", "application/json") ∧
    get_renderer "xml" = Except.ok Codec.xml ∧
    get_decoder "xml" = Except.ok Codec.xml ∧
    get_serializer_content_type "xml" = Except.ok ("Content-Type", "application/xml") ∧
    get_renderer "yaml" = Except.error RoaError.notImplemented ∧
    get_decoder "yaml" = Except.error RoaError.notImplemented ∧
    get_serializer_content_type "yaml" = Except.error RoaError.notImplemented ∧
    get_renderer "msgpack" = Except.error RoaError.notImplemented ∧
    get_serializer_content_type "msgpack" = Except.error RoaError.notImplemented := by
  decide

/-- C5 counterexample: with a custom primary key, a probe that raises
`HTTPError` and `force_update=True`, the save still proceeds as an
update (`PUT`), so a probe failure does not always cause a create. -/
theorem probe_error_create_counterexample :
    (save_base cCtx 1 false false true cSt0).toOption.map (fun st => writeCalls st.events)
      = some [⟨Method.PUT, "/cs/s5/", "c"⟩] := by
  decide

/-- C5 as amended: for a custom-primary-key save the probe `GET` is
performed and a transport `HTTPError` from it is swallowed and treated
as "record does not exist"; provided `force_update` is not set, the
save then proceeds as a create (`POST` to the list URL). -/
theorem probe_error_swallowed_means_create (ctx : SaveCtx) (fuel : Nat) (fi : Bool)
    (st st' : SaveState) (rp : HttpResponse) (rest0 : List HttpResponse)
    (hpar : ctx.leafCls.meta.parents = [])
    (hproxy : ctx.leafCls.meta.proxy = false)
    (hauto : ctx.leafCls.meta.autoCreated = false)
    (hcustom : customPkP ctx.leafCls.meta)
    (hresp : st.responses = rp :: rest0)
    (herr : rp.httpError = true)
    (hok : save_base ctx fuel false fi false st = Except.ok st') :
    ∃ du : String,
      get_resource_url_detail ctx.env ctx.leafCls st.inst = Except.ok du ∧
      Event.http ⟨Method.GET, du, ctx.leafCls.meta.modelName⟩ ∈ st'.events ∧
      ∃ lu : String,
        get_resource_url_list ctx.env ctx.leafCls = Except.ok lu ∧
        writeCalls st'.events = writeCalls st.events ++
          [⟨Method.POST, lu, ctx.leafCls.meta.modelName⟩] := by
  rcases save_base_noParents_run ctx fuel fi false st st' hpar hproxy hauto hok with
    ⟨probeEv, r, rest, c, hst, hlev, hm, hiff, hput, hpost, hloc⟩
  rcases hloc with ⟨hnc, _, _⟩ | ⟨_, du, rp2, hresp2, hdu, hpe⟩
  · exact absurd hcustom hnc
  · have hrp : rp = rp2 := by
      rw [hresp] at hresp2
      injection hresp2 with h1 _
    have hnotput : ¬ c.method = Method.PUT := by
      intro hPut
      have hud := hiff.mp hPut
      unfold updateDecision recordConfirmed at hud
      rcases hud with h1 | ⟨⟨_, himp⟩, _⟩
      · exact Bool.noConfusion h1
      · have hff := himp hcustom rp2 (r :: rest) hresp2
        rw [← hrp] at hff
        rw [hff] at herr
        exact Bool.noConfusion herr
    have hPost : c.method = Method.POST := by
      rcases hm with h | h
      · exact absurd h hnotput
      · exact h
    obtain ⟨cm, cu, cl⟩ := c
    simp only at hPost hlev
    subst hPost
    subst hlev
    refine ⟨du, hdu, ?_, cu, hpost rfl, ?_⟩
    · rw [hst]
      simp [hpe]
    · rw [hst]
      simp [hpe, writeCalls]

/-- C5 witness: probe raises, `force_update` unset, save creates. -/
theorem probe_error_swallowed_means_create_witness :
    ∃ du : String,
      get_resource_url_detail cCtx.env cCtx.leafCls cW0.inst = Except.ok du ∧
      Event.http ⟨Method.GET, du, cCtx.leafCls.meta.modelName⟩ ∈ cW1.events ∧
      ∃ lu : String,
        get_resource_url_list cCtx.env cCtx.leafCls = Except.ok lu ∧
        writeCalls cW1.events = writeCalls cW0.events ++
          [⟨Method.POST, lu, cCtx.leafCls.meta.modelName⟩] :=
  probe_error_swallowed_means_create cCtx 1 false cW0 cW1 errResp
    [okResp "slug" (Value.str "s9") []] rfl rfl rfl (by decide) rfl rfl (by decide)

/-- C6: on a successful save the primary key written back onto the
original instance is the integer representation of the deserialized
instance's pk when numeric-coercible, else the raw value (`pyCoerce`);
`r` is the response consumed by the write dispatch. -/
theorem saved_pk_integer_coercion (ctx : SaveCtx) (fuel : Nat) (fi fu : Bool)
    (st st' : SaveState) (r : HttpResponse) (rest0 : List HttpResponse) (rp : HttpResponse)
    (hpar : ctx.leafCls.meta.parents = [])
    (hproxy : ctx.leafCls.meta.proxy = false)
    (hauto : ctx.leafCls.meta.autoCreated = false)
    (hloc0 : (¬ customPkP ctx.leafCls.meta ∧ st.responses = r :: rest0) ∨
             (customPkP ctx.leafCls.meta ∧ st.responses = rp :: r :: rest0))
    (hok : save_base ctx fuel false fi fu st = Except.ok st') :
    getattr st'.inst ctx.leafCls.meta.pkAttname =
      pyCoerce (getattr r.validatedData ctx.leafCls.meta.pkAttname) := by
  rcases save_base_noParents_run ctx fuel fi fu st st' hpar hproxy hauto hok with
    ⟨probeEv, r2, rest2, c, hst, _, _, _, _, _, hloc⟩
  have hr : r2 = r := by
    rcases hloc with ⟨hnc, hresp2, _⟩ | ⟨hc, du, rp2, hresp2, _, _⟩
    · rcases hloc0 with ⟨_, hresp0⟩ | ⟨hc0, _⟩
      · rw [hresp0] at hresp2
        injection hresp2 with h1 _
        exact h1.symm
      · exact absurd hc0 hnc
    · rcases hloc0 with ⟨hnc0, _⟩ | ⟨_, hresp0⟩
      · exact absurd hc hnc0
      · rw [hresp0] at hresp2
        injection hresp2 with _ h2
        injection h2 with h1 _
        exact h1.symm
  subst hr
  rw [hst]
  exact getattr_setattr_self st.inst ctx.leafCls.meta.pkAttname _

/-- C6 witness: the server replies with id 7; the instance ends with
integer primary key 7. -/
theorem saved_pk_integer_coercion_witness :
    getattr wSt1.inst widgetCtx.leafCls.meta.pkAttname =
      pyCoerce (getattr wResp.validatedData widgetCtx.leafCls.meta.pkAttname) :=
  saved_pk_integer_coercion widgetCtx 1 false false wSt0 wSt1 wResp [] wResp
    rfl rfl rfl (Or.inl ⟨by decide, rfl⟩) (by decide)

/-- C7: save with both `force_insert` and `force_update` raises
`AssertionError` with the event trace unchanged, so before any signal,
probe or HTTP call. -/
theorem force_flags_assert_before_network (ctx : SaveCtx) (fuel : Nat) (raw : Bool)
    (st : SaveState) :
    save_base ctx fuel raw true true st =
      Except.error (RoaError.assertionError, st.events) := by
  unfold save_base saveLevel
  simp

/-- C8: a detail override for the entity's exact `app_label.model_name`
key takes precedence over the entity's own detail-URL method; an
override entered under a different key changes nothing; and with no
override the default detail URL is the list URL with the primary key
appended and a trailing slash. -/
theorem detail_url_override_precedence (env : RoaEnv) (cls : ModelCls) (self : Inst) :
    (∀ f, lookupAssoc env.overridesDetail (metaKey cls.meta) = some f →
      get_resource_url_detail env cls self = Except.ok (f self)) ∧
    (∀ (k : String) (f : Inst → String), k ≠ metaKey cls.meta →
      get_resource_url_detail
          { env with overridesDetail := (k, f) :: env.overridesDetail } cls self =
        get_resource_url_detail env cls self) ∧
    (lookupAssoc env.overridesDetail (metaKey cls.meta) = Option.none →
      cls.declaredDetail = Option.none →
      ∀ u, get_resource_url_list env cls = Except.ok u →
        get_resource_url_detail env cls self =
          Except.ok (u ++ pyStr (getattr self cls.meta.pkAttname) ++ "/")) := by
  refine ⟨?_, ?_, ?_⟩
  · intro f h
    simp [get_resource_url_detail, h]
  · intro k f hk
    simp [get_resource_url_detail, get_resource_url_list, lookupAssoc, hk]
  · intro h1 h2 u h3
    simp [get_resource_url_detail, h1, h2, h3]

/-- C8 witness: the `app.widget` detail override wins. -/
theorem detail_url_override_precedence_witness :
    get_resource_url_detail envOverride widgetCls wInst0 = Except.ok "/over/9/" :=
  (detail_url_override_precedence envOverride widgetCls wInst0).1
    (fun _ => "/over/9/") rfl

/-- C9: with no class-supplied list resolver and no list override, list
URL resolution fails with the configuration error raised by the base
static method. -/
theorem missing_list_resolver_errors (env : RoaEnv) (cls : ModelCls)
    (hdecl : cls.declaredList = Option.none)
    (hover : lookupAssoc env.overridesList (metaKey cls.meta) = Option.none) :
    get_resource_url_list env cls = Except.error RoaError.urlNotDefined := by
  simp [get_resource_url_list, hover, declaredListUrl, hdecl]

/-- C9 witness. -/
theorem missing_list_resolver_errors_witness :
    get_resource_url_list jsonEnv bareCls = Except.error RoaError.urlNotDefined :=
  missing_list_resolver_errors jsonEnv bareCls rfl rfl

/-- C10 counterexample: on a two-level inheritance instance a
successful save also rewrites the ancestor pk attribute `id` (from the
parent-link fill step), so attributes other than the primary key do not
all stay as they were. -/
theorem save_writeback_frame_counterexample :
    (save_base bCtx 2 false false false b10St0).toOption.map
        (fun st => (getattr st.inst "id", getattr b10Inst "id"))
      = some (Value.int 5, Value.none) ∧
    ("id" : String) ≠ metaB.pkAttname := by
  decide

/-- C10 as amended: for a model with no concrete ancestors, the only
attribute of the caller's instance written back from the decoded
response is the primary key — every other attribute is unchanged — and
the fully deserialized response instance is handed only to the
`post_save` notification, as the last event of the save. -/
theorem save_writeback_frame (ctx : SaveCtx) (fuel : Nat) (fi fu : Bool)
    (st st' : SaveState)
    (hpar : ctx.leafCls.meta.parents = [])
    (hproxy : ctx.leafCls.meta.proxy = false)
    (hauto : ctx.leafCls.meta.autoCreated = false)
    (hok : save_base ctx fuel false fi fu st = Except.ok st') :
    (∀ a, a ≠ ctx.leafCls.meta.pkAttname → getattr st'.inst a = getattr st.inst a) ∧
    (∃ (preEvs : List Event) (r : HttpResponse) (b : Bool),
      r ∈ st.responses ∧
      st'.inst = setattr st.inst ctx.leafCls.meta.pkAttname
        (pyCoerce (getattr r.validatedData ctx.leafCls.meta.pkAttname)) ∧
      st'.events = preEvs ++
        [Event.postSave ctx.leafCls.meta.modelName r.validatedData b false]) := by
  rcases save_base_noParents_run ctx fuel fi fu st st' hpar hproxy hauto hok with
    ⟨probeEv, r, rest, c, hst, _, _, _, _, _, hloc⟩
  constructor
  · intro a ha
    rw [hst]
    exact getattr_setattr_ne st.inst ctx.leafCls.meta.pkAttname a _ ha
  · refine ⟨st.events ++ [Event.preSave ctx.leafCls.meta.modelName st.inst false]
        ++ probeEv ++ [Event.http c], r, decide (c.method = Method.POST), ?_, ?_, ?_⟩
    · rcases hloc with ⟨_, hresp, _⟩ | ⟨_, du, rp, hresp, _, _⟩
      · rw [hresp]
        exact List.mem_cons_self _ _
      · rw [hresp]
        exact List.mem_cons_of_mem _ (List.mem_cons_self _ _)
    · rw [hst]
    · rw [hst]
      simp

/-- C10 witness: the widget save changes only `id` and ends with
`post_save` carrying the deserialized reply. -/
theorem save_writeback_frame_witness :
    (∀ a, a ≠ widgetCtx.leafCls.meta.pkAttname →
      getattr wSt1.inst a = getattr wSt0.inst a) ∧
    (∃ (preEvs : List Event) (r : HttpResponse) (b : Bool),
      r ∈ wSt0.responses ∧
      wSt1.inst = setattr wSt0.inst widgetCtx.leafCls.meta.pkAttname
        (pyCoerce (getattr r.validatedData widgetCtx.leafCls.meta.pkAttname)) ∧
      wSt1.events = preEvs ++
        [Event.postSave widgetCtx.leafCls.meta.modelName r.validatedData b false]) :=
  save_writeback_frame widgetCtx 1 false false wSt0 wSt1 rfl rfl rfl (by decide)

end DjangoRoa
